import Mathlib

/-!
# Verification of the mobx-state-tree action core

Shallow embedding of the action-recording / replay subsystem of the
repository and proofs of the frozen claims about it.

The repository snapshot contains two source files:

* `src/core/async.ts` — the asynchronous action coordinator
  (`createAsyncActionInvoker`), embedded below as a small-step machine over
  an explicit task queue (one task = one scheduler tick: a promise-callback
  turn or a `setImmediate` turn).
* `test/action.ts` — the tests for the synchronous interceptor, the argument
  serializer and the recorder/replayer.  Those implementations themselves
  (`createActionInvoker`, the serializer, `recordActions`) are not in the
  snapshot; where a definition embeds such a missing part it is modelled from
  the specification and marked `Modelled from the spec:` in its doc comment.
-/

/-! ## JavaScript values

Values flowing through the async machinery: resumption values, rejection
reasons, yielded objects.  A promise is modelled with its (predetermined)
settlement: `promiseOk v` is a thenable that fulfills with `v`,
`promiseErr e` one that rejects with `e`. -/

inductive JSVal where
  | undef
  | num (n : Int)
  | str (s : String)
  | boolean (b : Bool)
  | error (msg : String)
  | promiseOk (v : JSVal)
  | promiseErr (e : JSVal)
  deriving Repr, DecidableEq

/-- `typeof v.then === "function"` for our value grammar: only promises are
thenable.  The source guards `!ret.value || typeof ret.value.then !==
"function"`; a falsy value is never thenable, so the combined test is
equivalent to `¬ isThenable`. -/
def JSVal.isThenable : JSVal → Bool
  | .promiseOk _ => true
  | .promiseErr _ => true
  | _ => false

/-- The result object of a generator step: `{ done, value }`. -/
structure IterResult where
  done : Bool
  value : JSVal
  deriving Repr, DecidableEq

/-- JS string coercion of an iterator-result object, as it occurs in the
source's `"... got: " + ret`: a plain object coerces to
`"[object Object]"`. -/
def iterResultToString (_ : IterResult) : String := "[object Object]"

/-- A JS generator object with internal state `σ`: `gen.next(v)` and
`gen.throw(e)` either raise (`Except.error`) or return the updated internal
state together with an `IterResult`.  (`throwFn` embeds `gen.throw`; `throw`
is a Lean keyword.) -/
structure Gen (σ : Type) where
  next : σ → JSVal → Except JSVal (σ × IterResult)
  throwFn : σ → JSVal → Except JSVal (σ × IterResult)

/-! ## Records and the modelled interceptor -/

/-- A record as emitted by `createActionInvoker(name, fn, mode, runId)` for an
async sub-step; `arg` is the value passed through `wrap(fn, mode, arg)`. -/
structure AsyncRecord where
  name : String
  mode : String
  runId : Nat
  arg : JSVal
  deriving Repr, DecidableEq

/-- Modelled from the spec: `createActionInvoker` (src/core/action.ts, absent
from this snapshot) builds the action record before running the wrapped
function and emits it to the listener registry only for a top-level call —
"Exactly one Action Record is emitted to the Listener Registry per top-level
`invoke`" (§4.3); a call nested inside an already-running action emits no
separate record.  `depth` is the nesting depth of the currently running
action at the call site; the result is the list of records this call appends
to the log. -/
def wrapEmit (name : String) (mode : String) (runId : Nat) (arg : JSVal)
    (depth : Nat) : List AsyncRecord :=
  if depth = 0 then [⟨name, mode, runId, arg⟩] else []

/-! ## The coordinator as a small-step machine

A task is one pending scheduler turn of the run in `asyncAction`'s
`new Promise` executor:

* `fulfilled res` / `rejected err` — the continuation installed by
  `ret.value.then(onFulfilled, onRejected)`, fired when the awaited promise
  settles;
* `settleReturn v` — the `setImmediate` thunk of `next` on `ret.done`:
  `wrap(r => resolve(r), "return", ret.value)`;
* `settleThrow e` — the `setImmediate` thunk of the catch branches:
  `wrap(r => reject(e), "throw", e)`. -/
inductive AsyncTask where
  | fulfilled (res : JSVal)
  | rejected (err : JSVal)
  | settleReturn (v : JSVal)
  | settleThrow (e : JSVal)
  deriving Repr, DecidableEq

/-- Configuration of one run: generator state, the global emitted-record log,
the pending task queue, and the deferred result of the `new Promise`
(`none` while pending). -/
structure AsyncConfig (σ : Type) where
  genState : σ
  records : List AsyncRecord
  tasks : List AsyncTask
  result : Option (Except JSVal JSVal)
  deriving Repr

/-- `function next(ret)` of the source: on `ret.done`, schedule the deferred
`return` settlement; otherwise the yielded value must be thenable
(`if (!ret.value || typeof ret.value.then !== "function") fail(...)`) and the
machine waits on it (`ret.value.then(onFulfilled, onRejected)`); a
non-thenable yield throws `fail`'s error out of the caller. -/
def nextStep (ret : IterResult) : Except JSVal AsyncTask :=
  if ret.done then .ok (.settleReturn ret.value)
  else match ret.value with
    | .promiseOk v => .ok (.fulfilled v)
    | .promiseErr e => .ok (.rejected e)
    | _ => .error (.error
        ("Only promises can be yielded to `async`, got: " ++ iterResultToString ret))

/-- `function onFulfilled(res)`: emit the `yield` record (via `wrap`, which
records before running the wrapped function), run `gen.next(res)`; a raise is
caught and schedules the deferred `throw` settlement; otherwise control goes
to `next(ret)`, whose own raise (invalid yield) propagates out uncaught.
Returns (new generator state, records appended, either the tasks scheduled or
the uncaught exception). -/
def onFulfilled {σ : Type} (g : Gen σ) (name : String) (runId : Nat)
    (depth : Nat) (s : σ) (res : JSVal) :
    σ × List AsyncRecord × Except JSVal (List AsyncTask) :=
  let recs := wrapEmit name "yield" runId res depth
  match g.next s res with
  | .error e => (s, recs, .ok [.settleThrow e])
  | .ok (s', ret) =>
      match nextStep ret with
      | .error e => (s', recs, .error e)
      | .ok task => (s', recs, .ok [task])

/-- `function onRejected(err)`: like `onFulfilled` but signals the failure
into the sequence with `gen.throw(err)` under a `yieldError` record. -/
def onRejected {σ : Type} (g : Gen σ) (name : String) (runId : Nat)
    (depth : Nat) (s : σ) (err : JSVal) :
    σ × List AsyncRecord × Except JSVal (List AsyncTask) :=
  let recs := wrapEmit name "yieldError" runId err depth
  match g.throwFn s err with
  | .error e => (s, recs, .ok [.settleThrow e])
  | .ok (s', ret) =>
      match nextStep ret with
      | .error e => (s', recs, .error e)
      | .ok task => (s', recs, .ok [task])

/-- `resolve` / `reject` of the `new Promise` executor: settle only while
still pending. -/
def settle (result : Option (Except JSVal JSVal)) (r : Except JSVal JSVal) :
    Option (Except JSVal JSVal) :=
  match result with
  | none => some r
  | some r₀ => some r₀

/-- The initial synchronous turn: the executor of `new Promise` runs
`createActionInvoker(name, asyncActionInit, "invoke", runId).apply(ctx, args)`
— a top-level call, so the `invoke` record is emitted — and `asyncActionInit`
instantiates the generator (state `s0`) and calls `onFulfilled(undefined)`
*inside* the invoke action (depth 1, so its `yield` record is not emitted).
An exception propagating out of the executor rejects the promise. -/
def invokeTurn {σ : Type} (g : Gen σ) (name : String) (runId : Nat)
    (s0 : σ) (arg : JSVal) : AsyncConfig σ :=
  let invokeRecs := wrapEmit name "invoke" runId arg 0
  match onFulfilled g name runId 1 s0 .undef with
  | (s', recs, .ok tasks) => ⟨s', invokeRecs ++ recs, tasks, none⟩
  | (s', recs, .error e) => ⟨s', invokeRecs ++ recs, [], some (.error e)⟩

/-- Run one pending task (one scheduler tick).  The promise-callback turns
run `onFulfilled` / `onRejected` at depth 0; an exception escaping such a
callback is an unhandled rejection of the internal `.then` chain — it does
not touch the deferred result.  The `setImmediate` turns emit the terminal
record through `wrap` (depth 0) and then settle. -/
def stepTask {σ : Type} (g : Gen σ) (name : String) (runId : Nat) (s : σ)
    (result : Option (Except JSVal JSVal)) :
    AsyncTask → σ × List AsyncRecord × List AsyncTask × Option (Except JSVal JSVal)
  | .fulfilled res =>
      match onFulfilled g name runId 0 s res with
      | (s', recs, .ok ts) => (s', recs, ts, result)
      | (s', recs, .error _) => (s', recs, [], result)
  | .rejected err =>
      match onRejected g name runId 0 s err with
      | (s', recs, .ok ts) => (s', recs, ts, result)
      | (s', recs, .error _) => (s', recs, [], result)
  | .settleReturn v =>
      (s, wrapEmit name "return" runId v 0, [], settle result (.ok v))
  | .settleThrow e =>
      (s, wrapEmit name "throw" runId e 0, [], settle result (.error e))

/-- One step of the machine: pop the first pending task and run it. -/
def step {σ : Type} (g : Gen σ) (name : String) (runId : Nat)
    (c : AsyncConfig σ) : AsyncConfig σ :=
  match c.tasks with
  | [] => c
  | t :: rest =>
      let out := stepTask g name runId c.genState c.result t
      ⟨out.1, c.records ++ out.2.1, rest ++ out.2.2.1, out.2.2.2⟩

/-- The configuration after the initial synchronous turn followed by `n`
scheduler ticks. -/
def runSteps {σ : Type} (g : Gen σ) (name : String) (runId : Nat)
    (s0 : σ) (arg : JSVal) : Nat → AsyncConfig σ
  | 0 => invokeTurn g name runId s0 arg
  | n + 1 => step g name runId (runSteps g name runId s0 arg n)

/-! ## `createAsyncActionInvoker` and the module-level counter

In the source the runId is computed when the *invoker* is created, not when
it is invoked: `const runId = ++generatorId` sits outside the returned
`asyncAction` closure, so every invocation of one created invoker reuses that
runId. -/

/-- An invoker as returned by `createAsyncActionInvoker`: the generator with
the name and the runId fixed at creation time. -/
structure AsyncInvoker (σ : Type) where
  name : String
  g : Gen σ
  runId : Nat

/-- `createAsyncActionInvoker(name, generator)`: increments the module-level
`generatorId` counter and fixes the incremented value as the invoker's runId.
Takes the current counter, returns the invoker and the new counter. -/
def createAsyncActionInvoker {σ : Type} (name : String) (g : Gen σ)
    (generatorId : Nat) : AsyncInvoker σ × Nat :=
  (⟨name, g, generatorId + 1⟩, generatorId + 1)

/-- One invocation of a created invoker, observed after `n` scheduler
ticks. -/
def invokeAsync {σ : Type} (inv : AsyncInvoker σ) (s0 : σ) (arg : JSVal)
    (n : Nat) : AsyncConfig σ :=
  runSteps inv.g inv.name inv.runId s0 arg n

/-! ## General facts about one run -/

/-- `onFulfilled` at top level records exactly one `yield` record carrying the
resumption value, whatever the generator does. -/
theorem onFulfilled_records {σ : Type} (g : Gen σ) (name : String) (rid : Nat)
    (s : σ) (res : JSVal) :
    (onFulfilled g name rid 0 s res).2.1 = [⟨name, "yield", rid, res⟩] := by
  unfold onFulfilled
  rcases hg : g.next s res with e | ⟨s', ret⟩
  · simp [wrapEmit]
  · rcases hn : nextStep ret with e | t <;> simp [wrapEmit, hn]

/-- `onRejected` at top level records exactly one `yieldError` record carrying
the signalled failure, whatever the generator does. -/
theorem onRejected_records {σ : Type} (g : Gen σ) (name : String) (rid : Nat)
    (s : σ) (err : JSVal) :
    (onRejected g name rid 0 s err).2.1 = [⟨name, "yieldError", rid, err⟩] := by
  unfold onRejected
  rcases hg : g.throwFn s err with e | ⟨s', ret⟩
  · simp [wrapEmit]
  · rcases hn : nextStep ret with e | t <;> simp [wrapEmit, hn]

/-- Every record a scheduled task emits carries the run's runId and has one of
the sub-step modes — never `invoke`. -/
theorem stepTask_records_shape {σ : Type} (g : Gen σ) (name : String)
    (rid : Nat) (s : σ) (result : Option (Except JSVal JSVal)) (t : AsyncTask) :
    ∀ rec ∈ (stepTask g name rid s result t).2.1,
      rec.runId = rid ∧ rec.name = name ∧ rec.mode ≠ "invoke" := by
  cases t with
  | fulfilled res =>
      have h := onFulfilled_records g name rid s res
      rcases ho : onFulfilled g name rid 0 s res with ⟨s', recs, ts | e⟩ <;>
        simp [stepTask, ho] <;> rw [ho] at h <;> simp at h <;> simp [h]
  | rejected err =>
      have h := onRejected_records g name rid s err
      rcases ho : onRejected g name rid 0 s err with ⟨s', recs, ts | e⟩ <;>
        simp [stepTask, ho] <;> rw [ho] at h <;> simp at h <;> simp [h]
  | settleReturn v => simp [stepTask, wrapEmit]
  | settleThrow e => simp [stepTask, wrapEmit]

/-! ## Claim C3: record sequence of a two-await run -/

/-- A run that awaits exactly two sequential pending operations and completes
normally: the first step yields a promise fulfilling with `v1`, the resumed
step yields a promise fulfilling with `v2`, and the final resumption
completes with value `r`. -/
def TwoAwaitNormal {σ : Type} (g : Gen σ) (s0 s1 s2 s3 : σ)
    (v1 v2 r : JSVal) : Prop :=
  g.next s0 .undef = .ok (s1, ⟨false, .promiseOk v1⟩) ∧
  g.next s1 v1 = .ok (s2, ⟨false, .promiseOk v2⟩) ∧
  g.next s2 v2 = .ok (s3, ⟨true, r⟩)

/-- C3: for an asynchronous action run that awaits exactly two sequential
pending operations and completes normally, the records emitted for its runId
are exactly `invoke, yield, yield, return`, the `invoke` record first, the
deferred result resolving with the final value; and no records of other
runIds interleaved between the run's own records change that per-runId
sequence. -/
theorem async_two_await_record_sequence {σ : Type} (g : Gen σ)
    (name : String) (rid : Nat) (s0 s1 s2 s3 : σ) (v1 v2 r arg : JSVal)
    (h : TwoAwaitNormal g s0 s1 s2 s3 v1 v2 r)
    (e0 e1 e2 e3 e4 : List AsyncRecord)
    (he : ∀ rec ∈ e0 ++ e1 ++ e2 ++ e3 ++ e4, rec.runId ≠ rid) :
    (runSteps g name rid s0 arg 3).records =
      [⟨name, "invoke", rid, arg⟩, ⟨name, "yield", rid, v1⟩,
       ⟨name, "yield", rid, v2⟩, ⟨name, "return", rid, r⟩] ∧
    (runSteps g name rid s0 arg 3).result = some (.ok r) ∧
    (runSteps g name rid s0 arg 3).tasks = [] ∧
    List.filter (fun rec => rec.runId == rid)
      (e0 ++ [⟨name, "invoke", rid, arg⟩] ++ e1 ++ [⟨name, "yield", rid, v1⟩]
        ++ e2 ++ [⟨name, "yield", rid, v2⟩] ++ e3 ++ [⟨name, "return", rid, r⟩]
        ++ e4) =
      [⟨name, "invoke", rid, arg⟩, ⟨name, "yield", rid, v1⟩,
       ⟨name, "yield", rid, v2⟩, ⟨name, "return", rid, r⟩] := by
  obtain ⟨h1, h2, h3⟩ := h
  refine ⟨?_, ?_, ?_, ?_⟩
  · simp [runSteps, invokeTurn, step, stepTask, onFulfilled, nextStep,
      wrapEmit, settle, h1, h2, h3]
  · simp [runSteps, invokeTurn, step, stepTask, onFulfilled, nextStep,
      wrapEmit, settle, h1, h2, h3]
  · simp [runSteps, invokeTurn, step, stepTask, onFulfilled, nextStep,
      wrapEmit, settle, h1, h2, h3]
  · have hnil : ∀ (l : List AsyncRecord), (∀ rec ∈ l, rec.runId ≠ rid) →
        List.filter (fun rec => rec.runId == rid) l = [] := by
      intro l hl
      refine List.filter_eq_nil_iff.mpr ?_
      intro a ha
      simpa using hl a ha
    simp [List.filter_append, hnil e0 (fun rec hr => he rec (by simp [hr])),
      hnil e1 (fun rec hr => he rec (by simp [hr])),
      hnil e2 (fun rec hr => he rec (by simp [hr])),
      hnil e3 (fun rec hr => he rec (by simp [hr])),
      hnil e4 (fun rec hr => he rec (by simp [hr]))]

/-- A concrete two-await generator used to instantiate the C3 theorem:
`yield fetch1; yield fetch2; return 3`. -/
def genTwoAwait : Gen Nat where
  next s _ :=
    match s with
    | 0 => .ok (1, ⟨false, .promiseOk (.num 1)⟩)
    | 1 => .ok (2, ⟨false, .promiseOk (.num 2)⟩)
    | _ => .ok (3, ⟨true, .num 3⟩)
  throwFn _ e := .error e

/-- Witness for C3 at the concrete generator `genTwoAwait`. -/
theorem async_two_await_record_sequence_witness :
    TwoAwaitNormal genTwoAwait 0 1 2 3 (.num 1) (.num 2) (.num 3) ∧
    (runSteps genTwoAwait "fetch" 7 0 .undef 3).records =
      [⟨"fetch", "invoke", 7, .undef⟩, ⟨"fetch", "yield", 7, .num 1⟩,
       ⟨"fetch", "yield", 7, .num 2⟩, ⟨"fetch", "return", 7, .num 3⟩] ∧
    (runSteps genTwoAwait "fetch" 7 0 .undef 3).result = some (.ok (.num 3)) :=
  have hc : TwoAwaitNormal genTwoAwait 0 1 2 3 (.num 1) (.num 2) (.num 3) :=
    ⟨rfl, rfl, rfl⟩
  have hmain := async_two_await_record_sequence genTwoAwait "fetch" 7
    0 1 2 3 (.num 1) (.num 2) (.num 3) .undef hc [] [] [] [] []
    (by intro rec hr; simp at hr)
  ⟨hc, hmain.1, hmain.2.1⟩

/-! ## Claim C4: runIds -/

/-- The kick-off `onFulfilled(undefined)` runs nested inside the `invoke`
action (depth 1), so it emits no record of its own. -/
theorem onFulfilled_nested_records {σ : Type} (g : Gen σ) (name : String)
    (rid : Nat) (s : σ) (res : JSVal) :
    (onFulfilled g name rid 1 s res).2.1 = [] := by
  unfold onFulfilled
  rcases hg : g.next s res with e | ⟨s', ret⟩
  · simp [wrapEmit]
  · rcases hn : nextStep ret with e | t <;> simp [wrapEmit, hn]

/-- In every reachable configuration of one run, the record log starts with
the `invoke` record, and all later records carry the same runId and name with
a sub-step mode (`invoke` occurs exactly once, first). -/
theorem runSteps_records_shape {σ : Type} (g : Gen σ) (name : String)
    (rid : Nat) (s0 : σ) (arg : JSVal) :
    ∀ n, ∃ rest, (runSteps g name rid s0 arg n).records =
      ⟨name, "invoke", rid, arg⟩ :: rest ∧
      ∀ rec ∈ rest, rec.runId = rid ∧ rec.name = name ∧ rec.mode ≠ "invoke" := by
  intro n
  induction n with
  | zero =>
      refine ⟨[], ?_, by simp⟩
      have hrec := onFulfilled_nested_records g name rid s0 .undef
      unfold runSteps invokeTurn
      rcases ho : onFulfilled g name rid 1 s0 .undef with ⟨s', recs, ts | e⟩ <;>
        rw [ho] at hrec <;> simp at hrec <;> simp [wrapEmit, hrec]
  | succ n ih =>
      obtain ⟨rest, hrecs, hrest⟩ := ih
      show ∃ r, (step g name rid (runSteps g name rid s0 arg n)).records = _ ∧ _
      rcases ht : (runSteps g name rid s0 arg n).tasks with _ | ⟨t, ts⟩
      · exact ⟨rest, by simp [step, ht, hrecs], hrest⟩
      · refine ⟨rest ++ (stepTask g name rid (runSteps g name rid s0 arg n).genState
          (runSteps g name rid s0 arg n).result t).2.1, ?_, ?_⟩
        · simp [step, ht, hrecs]
        · intro rec hrec
          rcases List.mem_append.mp hrec with hmem | hmem
          · exact hrest rec hmem
          · exact stepTask_records_shape g name rid _ _ t rec hmem

/-- A generator that completes immediately; used to exhibit two invocations
of one created invoker. -/
def genTrivial : Gen Nat where
  next s _ := .ok (s, ⟨true, .undef⟩)
  throwFn _ e := .error e

/-- The invoker produced by a single `createAsyncActionInvoker` call
(module counter at 0). -/
def invTrivial : AsyncInvoker Nat :=
  (createAsyncActionInvoker "task" genTrivial 0).1

/-- C4 counterexample: two separate invocations of the same asynchronous
action (one `createAsyncActionInvoker` call, hence one invoker) share the
runId — `const runId = ++generatorId` runs at invoker-creation time, outside
the returned `asyncAction`, so the claim's "two separate invocations never
share a runId" is false.  Both complete runs carry runId 1 on every
record. -/
theorem async_runId_shared_counterexample :
    (invokeAsync invTrivial 0 .undef 1).records.map AsyncRecord.runId = [1, 1] ∧
    (invokeAsync invTrivial 0 (.num 5) 1).records.map AsyncRecord.runId = [1, 1] ∧
    ¬ (∀ ra ∈ (invokeAsync invTrivial 0 .undef 1).records,
        ∀ rb ∈ (invokeAsync invTrivial 0 (.num 5) 1).records,
          ra.runId ≠ rb.runId) := by
  refine ⟨by decide, by decide, ?_⟩
  intro hcontra
  exact hcontra ⟨"task", "invoke", 1, .undef⟩ (by decide)
    ⟨"task", "invoke", 1, .num 5⟩ (by decide) rfl

/-- C4 (amended): the runId is fresh per *invoker creation*, not per
invocation: successive `createAsyncActionInvoker` calls produce strictly
increasing, hence distinct, runIds; within any single invocation the `invoke`
record is entered exactly once and is the first record, and every sub-step
record of that invocation carries the invoker's runId.  (Two invocations of
the *same* created invoker do share its runId — see the counterexample.) -/
theorem async_runId_fresh_per_invoker {σ τ : Type} (name1 name2 : String)
    (g1 : Gen σ) (g2 : Gen τ) (gid : Nat) (s0 : σ) (arg : JSVal) (n : Nat) :
    (createAsyncActionInvoker name1 g1 gid).1.runId ≠
      (createAsyncActionInvoker name2 g2
        (createAsyncActionInvoker name1 g1 gid).2).1.runId ∧
    ∃ rest,
      (invokeAsync (createAsyncActionInvoker name1 g1 gid).1 s0 arg n).records =
        ⟨name1, "invoke", (createAsyncActionInvoker name1 g1 gid).1.runId, arg⟩
          :: rest ∧
      ∀ rec ∈ rest,
        rec.runId = (createAsyncActionInvoker name1 g1 gid).1.runId ∧
        rec.mode ≠ "invoke" := by
  constructor
  · simp [createAsyncActionInvoker]
  · obtain ⟨rest, hrecs, hrest⟩ :=
      runSteps_records_shape g1 name1 (gid + 1) s0 arg n
    exact ⟨rest, hrecs, fun rec hr => ⟨(hrest rec hr).1, (hrest rec hr).2.2⟩⟩

/-! ## Claim C5: terminal records and settlement are deferred one tick -/

/-- A `fulfilled` tick appends exactly the `yield` record and never changes
the deferred result (even when the generator raises or the yield is invalid:
the rejection is scheduled, respectively lost, but not performed in this
turn). -/
theorem stepTask_fulfilled_effects {σ : Type} (g : Gen σ) (name : String)
    (rid : Nat) (s : σ) (result : Option (Except JSVal JSVal)) (res : JSVal) :
    (stepTask g name rid s result (.fulfilled res)).2.1 =
      [⟨name, "yield", rid, res⟩] ∧
    (stepTask g name rid s result (.fulfilled res)).2.2.2 = result := by
  have h := onFulfilled_records g name rid s res
  rcases ho : onFulfilled g name rid 0 s res with ⟨s', recs, ts | e⟩ <;>
    rw [ho] at h <;> simp at h <;> simp [stepTask, ho, h]

/-- A `rejected` tick appends exactly the `yieldError` record and never
changes the deferred result. -/
theorem stepTask_rejected_effects {σ : Type} (g : Gen σ) (name : String)
    (rid : Nat) (s : σ) (result : Option (Except JSVal JSVal)) (err : JSVal) :
    (stepTask g name rid s result (.rejected err)).2.1 =
      [⟨name, "yieldError", rid, err⟩] ∧
    (stepTask g name rid s result (.rejected err)).2.2.2 = result := by
  have h := onRejected_records g name rid s err
  rcases ho : onRejected g name rid 0 s err with ⟨s', recs, ts | e⟩ <;>
    rw [ho] at h <;> simp at h <;> simp [stepTask, ho, h]

/-- C5: the terminal `return` / `throw` record of a run is emitted only by
the `setImmediate` tick scheduled at detection time, never within the turn in
which completion or failure was detected, and the deferred result is settled
in that same deferred tick, at most once.  Precisely: the initial synchronous
turn emits only the `invoke` record; a promise-callback turn (where
completion or failure is detected) appends only its `yield` / `yieldError`
record and leaves the deferred result untouched; the scheduled settle tick
appends exactly the terminal record and resolves / rejects a still-pending
deferred; and a settled result is never changed by any later step. -/
theorem async_terminal_records_deferred {σ : Type} (g : Gen σ)
    (name : String) (rid : Nat) (s0 : σ) (arg : JSVal) (c : AsyncConfig σ) :
    (runSteps g name rid s0 arg 0).records = [⟨name, "invoke", rid, arg⟩] ∧
    (∀ r, c.result = some r → (step g name rid c).result = some r) ∧
    (∀ res rest, c.tasks = .fulfilled res :: rest →
      (step g name rid c).records = c.records ++ [⟨name, "yield", rid, res⟩] ∧
      (step g name rid c).result = c.result) ∧
    (∀ err rest, c.tasks = .rejected err :: rest →
      (step g name rid c).records =
        c.records ++ [⟨name, "yieldError", rid, err⟩] ∧
      (step g name rid c).result = c.result) ∧
    (∀ v rest, c.tasks = .settleReturn v :: rest →
      (step g name rid c).records = c.records ++ [⟨name, "return", rid, v⟩] ∧
      (c.result = none → (step g name rid c).result = some (.ok v))) ∧
    (∀ e rest, c.tasks = .settleThrow e :: rest →
      (step g name rid c).records = c.records ++ [⟨name, "throw", rid, e⟩] ∧
      (c.result = none → (step g name rid c).result = some (.error e))) := by
  refine ⟨?_, ?_, ?_, ?_, ?_, ?_⟩
  · have hrec := onFulfilled_nested_records g name rid s0 .undef
    unfold runSteps invokeTurn
    rcases ho : onFulfilled g name rid 1 s0 .undef with ⟨s', recs, ts | e⟩ <;>
      rw [ho] at hrec <;> simp at hrec <;> simp [wrapEmit, hrec]
  · intro r hr
    rcases ht : c.tasks with _ | ⟨t, ts⟩
    · simpa [step, ht] using hr
    · cases t with
      | fulfilled res =>
          simp [step, ht, (stepTask_fulfilled_effects g name rid _ _ res).2, hr]
      | rejected err =>
          simp [step, ht, (stepTask_rejected_effects g name rid _ _ err).2, hr]
      | settleReturn v => simp [step, ht, stepTask, settle, hr]
      | settleThrow e => simp [step, ht, stepTask, settle, hr]
  · intro res rest ht
    have h := stepTask_fulfilled_effects g name rid c.genState c.result res
    exact ⟨by simp [step, ht, h.1], by simp [step, ht, h.2]⟩
  · intro err rest ht
    have h := stepTask_rejected_effects g name rid c.genState c.result err
    exact ⟨by simp [step, ht, h.1], by simp [step, ht, h.2]⟩
  · intro v rest ht
    exact ⟨by simp [step, ht, stepTask, wrapEmit],
      fun hnone => by simp [step, ht, stepTask, settle, hnone]⟩
  · intro e rest ht
    exact ⟨by simp [step, ht, stepTask, wrapEmit],
      fun hnone => by simp [step, ht, stepTask, settle, hnone]⟩

/-- Witness for C5 at the tick that settles the concrete two-await run: the
turn that detected completion left the deferred pending, and the scheduled
tick emits the `return` record and resolves it. -/
theorem async_terminal_records_deferred_witness :
    (runSteps genTwoAwait "fetch" 7 0 .undef 2).tasks =
      [.settleReturn (.num 3)] ∧
    (runSteps genTwoAwait "fetch" 7 0 .undef 2).result = none ∧
    (step genTwoAwait "fetch" 7 (runSteps genTwoAwait "fetch" 7 0 .undef 2)).records =
      (runSteps genTwoAwait "fetch" 7 0 .undef 2).records ++
        [⟨"fetch", "return", 7, .num 3⟩] ∧
    (step genTwoAwait "fetch" 7 (runSteps genTwoAwait "fetch" 7 0 .undef 2)).result =
      some (.ok (.num 3)) := by
  have h := async_terminal_records_deferred genTwoAwait "fetch" 7 0 .undef
    (runSteps genTwoAwait "fetch" 7 0 .undef 2)
  have hset := h.2.2.2.2.1 (.num 3) [] (by decide)
  exact ⟨by decide, by rfl, hset.1, hset.2 (by rfl)⟩

/-! ## Claim C6: failure routing -/

/-- A generator whose first await fails, which *handles* the signalled
failure (its `throw` at state 1 returns normally, yielding a second promise)
and whose next resumption then raises a different error; at state 5 its
`throw` re-raises (used to exercise the re-raise branch). -/
def genHandledFailure : Gen Nat where
  next s _ :=
    match s with
    | 0 => .ok (1, ⟨false, .promiseErr (.str "e1")⟩)
    | _ => .error (.str "e2")
  throwFn s _ :=
    match s with
    | 1 => .ok (2, ⟨false, .promiseOk (.num 7)⟩)
    | 5 => .error (.str "boom")
    | _ => .ok (s, ⟨true, .undef⟩)

/-- C6 counterexample: a run whose awaited operation fails, whose sequence
*handles* the failure when it is signalled (`gen.throw` at the `yieldError`
step returns normally), and which is nevertheless rejected with a terminal
`throw`-mode record — because a later resumption raises.  So "rejected with a
terminal throw-mode record if and only if the sequence re-raises when the
failure is signaled into it" is false: here the left side holds and the right
side fails. -/
theorem async_failure_iff_counterexample :
    (runSteps genHandledFailure "f" 1 0 .undef 3).result =
      some (.error (.str "e2")) ∧
    (runSteps genHandledFailure "f" 1 0 .undef 3).records.map
      AsyncRecord.mode = ["invoke", "yieldError", "yield", "throw"] ∧
    genHandledFailure.throwFn 1 (.str "e1") =
      .ok (2, ⟨false, .promiseOk (.num 7)⟩) := by
  exact ⟨by rfl, by rfl, by rfl⟩

/-- C6 (amended): when an awaited pending operation fails, the failure is
signalled back into the step sequence under a `yieldError`-mode record
carrying the error, so the sequence may handle it and continue: if
`gen.throw` re-raises, the coordinator schedules the deferred `throw`
settlement with the re-raised error, whose tick emits the `throw` record and
rejects a pending deferred; if `gen.throw` handles the failure and yields
another pending operation, the run continues waiting on it with the deferred
untouched.  (The converse of the claim's "iff" does not hold: a later
resumption error also produces a terminal `throw` rejection — see the
counterexample.) -/
theorem async_failure_routed_into_sequence {σ : Type} (g : Gen σ)
    (name : String) (rid : Nat) (s : σ)
    (result : Option (Except JSVal JSVal)) (err : JSVal) :
    (stepTask g name rid s result (.rejected err)).2.1 =
      [⟨name, "yieldError", rid, err⟩] ∧
    (∀ e, g.throwFn s err = .error e →
      (stepTask g name rid s result (.rejected err)).2.2.1 =
        [.settleThrow e]) ∧
    (∀ e s', stepTask g name rid s' none (.settleThrow e) =
      (s', [⟨name, "throw", rid, e⟩], [], some (.error e))) ∧
    (∀ s' v, g.throwFn s err = .ok (s', ⟨false, .promiseOk v⟩) →
      (stepTask g name rid s result (.rejected err)).2.2.1 = [.fulfilled v] ∧
      (stepTask g name rid s result (.rejected err)).2.2.2 = result) := by
  refine ⟨(stepTask_rejected_effects g name rid s result err).1, ?_, ?_, ?_⟩
  · intro e he
    simp [stepTask, onRejected, he, wrapEmit]
  · intro e s'
    simp [stepTask, wrapEmit, settle]
  · intro s' v hv
    constructor <;> simp [stepTask, onRejected, hv, nextStep, wrapEmit]

/-- Witness for C6 at `genHandledFailure`: the handled branch at state 1 and
the re-raising branch at state 5, plus the deferred `throw` tick. -/
theorem async_failure_routed_into_sequence_witness :
    (stepTask genHandledFailure "f" 1 1 none (.rejected (.str "e1"))).2.1 =
      [⟨"f", "yieldError", 1, .str "e1"⟩] ∧
    (stepTask genHandledFailure "f" 1 1 none (.rejected (.str "e1"))).2.2.1 =
      [.fulfilled (.num 7)] ∧
    (stepTask genHandledFailure "f" 1 5 none (.rejected (.str "x"))).2.2.1 =
      [.settleThrow (.str "boom")] ∧
    stepTask genHandledFailure "f" 1 (5 : Nat) none (.settleThrow (.str "boom")) =
      (5, [⟨"f", "throw", 1, .str "boom"⟩], [], some (.error (.str "boom"))) := by
  have h1 := async_failure_routed_into_sequence genHandledFailure "f" 1 1
    none (.str "e1")
  have h5 := async_failure_routed_into_sequence genHandledFailure "f" 1 5
    none (.str "x")
  exact ⟨h1.1, (h1.2.2.2 2 (.num 7) (by rfl)).1,
    h5.2.1 (.str "boom") (by rfl), h5.2.2.1 (.str "boom") 5⟩

/-! ## Claim C7: invalid yield -/

/-- A generator whose very first step yields a non-thenable value. -/
def genInvalidYieldFirst : Gen Nat where
  next _ _ := .ok (1, ⟨false, .num 42⟩)
  throwFn _ e := .error e

/-- A generator whose first await succeeds and whose second step then yields
a non-thenable value. -/
def genInvalidYieldSecond : Gen Nat where
  next s _ :=
    match s with
    | 0 => .ok (1, ⟨false, .promiseOk (.num 1)⟩)
    | _ => .ok (2, ⟨false, .num 42⟩)
  throwFn _ e := .error e

/-- C7 counterexample: (a) the error raised on a non-thenable yield is
`Error("Only promises can be yielded to ` + "`async`" + `, got: [object
Object]")`, not the claimed message; (b) when the invalid yield happens after
a resumption, the exception escapes a promise callback, so the run's deferred
is *not* rejected: the configuration after the failing tick has no pending
tasks and a still-pending result, and it is a fixed point of `step` — the
deferred never settles. -/
theorem async_invalid_yield_counterexample :
    (runSteps genInvalidYieldFirst "f" 1 0 .undef 0).result =
      some (.error (.error
        "Only promises can be yielded to `async`, got: [object Object]")) ∧
    "Only promises can be yielded to `async`, got: [object Object]" ≠
      "only pending asynchronous operations can be yielded to an async action" ∧
    (runSteps genInvalidYieldSecond "f" 1 0 .undef 1).records.map
      AsyncRecord.mode = ["invoke", "yield"] ∧
    (runSteps genInvalidYieldSecond "f" 1 0 .undef 1).tasks = [] ∧
    (runSteps genInvalidYieldSecond "f" 1 0 .undef 1).result = none ∧
    step genInvalidYieldSecond "f" 1 (runSteps genInvalidYieldSecond "f" 1 0 .undef 1) =
      runSteps genInvalidYieldSecond "f" 1 0 .undef 1 := by
  exact ⟨by rfl, by decide, by rfl, by rfl, by rfl, by rfl⟩

/-- `next(ret)` raises the invalid-yield error whenever the yielded value is
not thenable. -/
theorem nextStep_not_thenable (v : JSVal) (hv : v.isThenable = false) :
    nextStep ⟨false, v⟩ = .error (.error
      "Only promises can be yielded to `async`, got: [object Object]") := by
  cases v <;> simp_all [JSVal.isThenable, nextStep, iterResultToString]

/-- C7 (amended): a step that yields a non-thenable value raises
`Error("Only promises can be yielded to ...")` (the source's `fail` message,
not the spec's wording) and is fatal to that run — the sequence is never
resumed.  The deferred settlement is rejected with this error only when the
invalid yield occurs on the very first step, inside the `new Promise`
executor; when it occurs at a later resumption the exception escapes a
promise callback and the run's deferred is never settled. -/
theorem async_invalid_yield {σ : Type} (g : Gen σ) (name : String)
    (rid : Nat) (s0 : σ) (arg : JSVal) :
    (∀ s1 v, g.next s0 .undef = .ok (s1, ⟨false, v⟩) → v.isThenable = false →
      runSteps g name rid s0 arg 0 =
        ⟨s1, [⟨name, "invoke", rid, arg⟩], [], some (.error (.error
          "Only promises can be yielded to `async`, got: [object Object]"))⟩) ∧
    (∀ s res result s' w, g.next s res = .ok (s', ⟨false, w⟩) →
      w.isThenable = false →
      stepTask g name rid s result (.fulfilled res) =
        (s', [⟨name, "yield", rid, res⟩], [], result)) ∧
    (∀ c : AsyncConfig σ, c.tasks = [] → step g name rid c = c) := by
  refine ⟨?_, ?_, ?_⟩
  · intro s1 v hnext hv
    simp [runSteps, invokeTurn, onFulfilled, hnext, nextStep_not_thenable v hv,
      wrapEmit]
  · intro s res result s' w hnext hw
    simp [stepTask, onFulfilled, hnext, nextStep_not_thenable w hw, wrapEmit]
  · intro c hc
    simp [step, hc]

/-- Witness for C7 at the two concrete generators. -/
theorem async_invalid_yield_witness :
    runSteps genInvalidYieldFirst "f" 1 0 .undef 0 =
      ⟨1, [⟨"f", "invoke", 1, .undef⟩], [], some (.error (.error
        "Only promises can be yielded to `async`, got: [object Object]"))⟩ ∧
    stepTask genInvalidYieldSecond "f" 1 1 none (.fulfilled (.num 1)) =
      (2, [⟨"f", "yield", 1, .num 1⟩], [], none) ∧
    step genInvalidYieldSecond "f" 1 ⟨2, [], [], none⟩ = ⟨2, [], [], none⟩ := by
  have h1 := (async_invalid_yield genInvalidYieldFirst "f" 1 0 .undef).1
    1 (.num 42) (by rfl) (by rfl)
  have h2 := (async_invalid_yield genInvalidYieldSecond "f" 1 0 .undef).2.1
    1 (.num 1) none 2 (.num 42) (by rfl) (by rfl)
  have h3 := (async_invalid_yield genInvalidYieldSecond "f" 1 0 .undef).2.2
    ⟨2, [], [], none⟩ (by rfl)
  exact ⟨h1, h2, h3⟩

/-! ## Paths

The node identity / path resolver is an external collaborator (spec §4.1);
its contract is embedded here: root-relative paths as segment lists,
`relativePathBetween` producing `..`-prefixed relative paths, and resolution
of a relative path against a context node. -/

/-- A root-relative node path as a list of segments; `[]` is the root. -/
abbrev TreePath := List String

/-- The string form of a root-relative path: `""` for the root, otherwise
`/`-separated with a leading `/` (as in `/orders/0`). -/
def pathToString (p : TreePath) : String :=
  match p with
  | [] => ""
  | _ => "/" ++ String.intercalate "/" p

/-- Split a character list at `/` boundaries. -/
def splitChars : List Char → List (List Char)
  | [] => [[]]
  | c :: rest =>
      match splitChars rest with
      | [] => [[c]]
      | g :: gs => if c = '/' then [] :: g :: gs else (c :: g) :: gs

/-- Split a string at `/` boundaries (as `"…".split("/")` does). -/
def splitSlashes (s : String) : List String :=
  (splitChars s.toList).map (fun cs => String.mk cs)

/-- Parse the string form back into segments. -/
def parsePath (s : String) : TreePath :=
  if s = "" then [] else (splitSlashes s).drop 1

/-- Length of the longest common prefix of two paths. -/
def commonPrefixLen : TreePath → TreePath → Nat
  | a :: as, b :: bs => if a = b then commonPrefixLen as bs + 1 else 0
  | _, _ => 0

/-- Modelled from the spec (§4.1): `relativePathBetween(fromNode, toNode)` —
climb out of the non-shared part of the context path with `..` segments,
then descend into the target. -/
def relativePathSegs (ctx target : TreePath) : List String :=
  List.replicate (ctx.length - commonPrefixLen ctx target) ".." ++
    target.drop (commonPrefixLen ctx target)

/-- The string form of a relative path: `/`-separated, no leading slash. -/
def relativePathString (ctx target : TreePath) : String :=
  String.intercalate "/" (relativePathSegs ctx target)

/-- Parse a relative path string into segments. -/
def parseRelative (s : String) : List String :=
  if s = "" then [] else splitSlashes s

/-- Modelled from the spec (§4.2): resolve a relative path against a context
node: `..` climbs to the parent (a hard error past the root), any other
segment descends.  Resolution failure is `none`, surfaced as an error by the
deserializer. -/
def resolveRelative : TreePath → List String → Option TreePath
  | ctx, [] => some ctx
  | ctx, seg :: rest =>
      if seg = ".." then
        match ctx with
        | [] => none
        | _ :: _ => resolveRelative ctx.dropLast rest
      else resolveRelative (ctx ++ [seg]) rest

theorem commonPrefixLen_le_left :
    ∀ a b : TreePath, commonPrefixLen a b ≤ a.length := by
  intro a
  induction a with
  | nil => intro b; cases b <;> simp [commonPrefixLen]
  | cons x xs ih =>
      intro b
      cases b with
      | nil => simp [commonPrefixLen]
      | cons y ys =>
          by_cases hxy : x = y <;> simp [commonPrefixLen, hxy]
          exact ih ys

theorem commonPrefixLen_take :
    ∀ a b : TreePath, a.take (commonPrefixLen a b) = b.take (commonPrefixLen a b) := by
  intro a
  induction a with
  | nil => intro b; cases b <;> simp [commonPrefixLen]
  | cons x xs ih =>
      intro b
      cases b with
      | nil => simp [commonPrefixLen]
      | cons y ys =>
          by_cases hxy : x = y <;> simp [commonPrefixLen, hxy]
          exact ih ys

/-- Climbing with `n ≤ ctx.length` leading `..` segments truncates the
context to its first `ctx.length - n` segments. -/
theorem resolveRelative_updots :
    ∀ (n : Nat) (ctx : TreePath) (rest : List String), n ≤ ctx.length →
      resolveRelative ctx (List.replicate n ".." ++ rest) =
        resolveRelative (ctx.take (ctx.length - n)) rest := by
  intro n
  induction n with
  | zero => intro ctx rest _; simp
  | succ n ih =>
      intro ctx rest hn
      cases ctx with
      | nil => simp at hn
      | cons x xs =>
          have hlc : (x :: xs).length = xs.length + 1 := by simp
          have hdlen : ((x :: xs).dropLast).length = xs.length := by
            simp [List.length_dropLast]
          have hlen : n ≤ ((x :: xs).dropLast).length := by omega
          have hstep : resolveRelative (x :: xs)
              (List.replicate (n + 1) ".." ++ rest) =
              resolveRelative ((x :: xs).dropLast) (List.replicate n ".." ++ rest) := by
            simp [List.replicate_succ, resolveRelative]
          have htk : ((x :: xs).dropLast).take (((x :: xs).dropLast).length - n) =
              (x :: xs).take ((x :: xs).length - (n + 1)) := by
            rw [List.dropLast_eq_take, List.take_take]
            congr 1
            simp only [List.length_take]
            omega
          rw [hstep, ih _ rest hlen, htk]

/-- Descending along segments that are not `..` appends them to the
context. -/
theorem resolveRelative_down :
    ∀ (segs : List String) (ctx : TreePath), ".." ∉ segs →
      resolveRelative ctx segs = some (ctx ++ segs) := by
  intro segs
  induction segs with
  | nil => intro ctx _; simp [resolveRelative]
  | cons s ss ih =>
      intro ctx hs
      have hne : s ≠ ".." := fun h => hs (by simp [h])
      have hss : ".." ∉ ss := fun h => hs (List.mem_cons_of_mem _ h)
      simp only [resolveRelative]
      rw [if_neg hne, ih (ctx ++ [s]) hss]
      simp

/-- Round-trip of the reference encoding: resolving
`relativePathBetween(ctx, target)` from `ctx` yields `target`, for any two
nodes of one tree (no segment of a real node path is the literal `..`). -/
theorem resolveRelative_relativePathSegs (ctx target : TreePath)
    (htgt : ".." ∉ target) :
    resolveRelative ctx (relativePathSegs ctx target) = some target := by
  have hk := commonPrefixLen_le_left ctx target
  have htake := commonPrefixLen_take ctx target
  have hdrop : ".." ∉ target.drop (commonPrefixLen ctx target) :=
    fun h => htgt (List.mem_of_mem_drop h)
  rw [relativePathSegs,
    resolveRelative_updots (ctx.length - commonPrefixLen ctx target) ctx _ (by omega),
    resolveRelative_down _ _ hdrop]
  have : ctx.length - (ctx.length - commonPrefixLen ctx target) =
      commonPrefixLen ctx target := by omega
  rw [this, htake, List.take_append_drop]

/-! ## Serialized arguments and raw values -/

/-- A serialized action argument (spec §3 `SerializedArg`): a passed-through
primitive, a reference `{ $ref: <relative path> }`, or a JSON-serializable
composite. -/
inductive SArg where
  | null
  | boolean (b : Bool)
  | num (n : Int)
  | str (s : String)
  | ref (path : String)
  | arr (xs : List SArg)
  | obj (fields : List (String × SArg))
  deriving Repr

/-- A raw JavaScript argument value as the serializer sees it: a primitive, a
live tree node (tree root identity plus root-relative path), a composite
object or array living in an object heap (addressed by id, so that reference
cycles are expressible), or an opaque host object such as a `Buffer`. -/
inductive RawVal where
  | null
  | boolean (b : Bool)
  | num (n : Int)
  | str (s : String)
  | node (tree : Nat) (path : TreePath)
  | obj (id : Nat)
  | hostObj (kind : String)
  deriving Repr

/-- A composite in the object heap: a JS array or plain object. -/
inductive HeapObj where
  | arrO (xs : List RawVal)
  | objO (fields : List (String × RawVal))
  deriving Repr

/-- The object heap: ids to composites. -/
abbrev ObjHeap := List (Nat × HeapObj)

/-- A single-quote character as a string (used in the serializer's error
messages). -/
def sglQuote : String := String.singleton (Char.ofNat 39)

/-- Cross-tree error (test/action.ts line 179): names the action and the
argument index. -/
def crossTreeMsg (i : Nat) (action : String) : String :=
  "Argument " ++ toString i ++ " that was passed to action " ++ sglQuote ++
    action ++ sglQuote ++
    " is a model that is not part of the same state tree. Consider passing a snapshot or some representative ID instead"

/-- Cyclic-structure error (test/action.ts line 189). -/
def notSerializableMsg (i : Nat) (action : String) : String :=
  "Argument " ++ toString i ++ " that was passed to action " ++ sglQuote ++
    action ++ sglQuote ++ " is not serializable."

/-- Opaque host object error (test/action.ts line 194): names the received
kind. -/
def hostObjMsg (i : Nat) (action : String) (kind : String) : String :=
  "Argument " ++ toString i ++ " that was passed to action " ++ sglQuote ++
    action ++ sglQuote ++
    " should be a primitive, model object or plain object, received a " ++ kind

/-- Modelled from the spec (§4.2): `serialize(rawArg, contextNode)`.
Primitives pass through; a tree node must belong to the acting node's tree
(`CrossTreeReferenceError` otherwise) and is encoded as a reference relative
to the context node; composites are serialized recursively (elements and
field values left to right via the inner fold) with a stack-based cycle
check (`NotSerializableError` on a cycle); any other host object is
`NotSerializableError` naming the kind.  `fuel` bounds the heap-chasing
depth; chains longer than the heap must repeat an id and hit the cycle
check first. -/
def serializeVal (action : String) (i : Nat) (ctxTree : Nat)
    (ctxPath : TreePath) (heap : ObjHeap) :
    Nat → List Nat → RawVal → Except String SArg
  | _, _, .null => .ok .null
  | _, _, .boolean b => .ok (.boolean b)
  | _, _, .num n => .ok (.num n)
  | _, _, .str s => .ok (.str s)
  | _, _, .node t p =>
      if t = ctxTree then .ok (.ref (relativePathString ctxPath p))
      else .error (crossTreeMsg i action)
  | _, _, .hostObj kind => .error (hostObjMsg i action kind)
  | 0, _, .obj _ => .error (notSerializableMsg i action)
  | fuel + 1, stack, .obj id =>
      if id ∈ stack then .error (notSerializableMsg i action)
      else match (heap.lookup id : Option HeapObj) with
        | some (.arrO xs) =>
            (xs.foldr (fun x acc => do
              let sx ← serializeVal action i ctxTree ctxPath heap fuel
                (id :: stack) x
              let rest ← acc
              .ok (sx :: rest)) (.ok [])).map .arr
        | some (.objO fs) =>
            ((fs.map Prod.snd).foldr (fun x acc => do
              let sx ← serializeVal action i ctxTree ctxPath heap fuel
                (id :: stack) x
              let rest ← acc
              .ok (sx :: rest)) (.ok [])).map
              (fun ss => .obj ((fs.map Prod.fst).zip ss))
        | none => .error (notSerializableMsg i action)

/-! ## The interceptor, emitter and recorder (modelled from the spec) -/

/-- The wire form of an action record (spec §3): name, root-relative path,
serialized arguments. -/
structure WireRecord where
  name : String
  path : String
  args : List SArg
  deriving Repr

/-- Serialize an argument list left to right, numbering arguments from
`i`. -/
def serializeArgs (action : String) (tree : Nat) (ctxPath : TreePath)
    (heap : ObjHeap) : Nat → List RawVal → Except String (List SArg)
  | _, [] => .ok []
  | i, a :: as => do
      let s ← serializeVal action i tree ctxPath heap (heap.length + 1) [] a
      let rest ← serializeArgs action tree ctxPath heap (i + 1) as
      .ok (s :: rest)

/-- One top-level invocation as the emitter sees it: a user action call
(name, acting node's tree identity and path, raw arguments with their object
heap, state transformer), or an `applyPatch` / `applySnapshot` trigger
wrapped as a pseudo-action (spec §4.3, §6). -/
inductive Invocation (St : Type) where
  | action (name : String) (tree : Nat) (path : TreePath)
      (rawArgs : List RawVal) (heap : ObjHeap) (body : St → St)
  | applyPatches (path : TreePath) (patches : SArg) (body : St → St)
  | applySnapshot (path : TreePath) (snap : SArg) (body : St → St)

/-- The state transformer of an invocation. -/
def Invocation.body {St : Type} : Invocation St → (St → St)
  | .action _ _ _ _ _ b => b
  | .applyPatches _ _ b => b
  | .applySnapshot _ _ b => b

/-- Modelled from the spec (§4.3): the action record of a top-level
invocation — invoked name, acting node's root-relative path, serialized
arguments; `@APPLY_PATCHES` / `@APPLY_SNAPSHOT` carry the patch list /
snapshot as their single argument.  Serialization failure is a synchronous
error. -/
def recordOf {St : Type} : Invocation St → Except String WireRecord
  | .action name tree path rawArgs heap _ =>
      (serializeArgs name tree path heap 0 rawArgs).map
        (fun sargs => ⟨name, pathToString path, sargs⟩)
  | .applyPatches path ps _ => .ok ⟨"@APPLY_PATCHES", pathToString path, [ps]⟩
  | .applySnapshot path sn _ => .ok ⟨"@APPLY_SNAPSHOT", pathToString path, [sn]⟩

/-- Modelled from the spec (§4.3): the interceptor computes path and
serialized arguments and builds the record *before* the body runs; on
serialization failure the body is never invoked and the error propagates to
the caller; otherwise the record is emitted and the body executes. -/
def intercept {St : Type} (st : St) (inv : Invocation St) :
    Except String (St × WireRecord) :=
  match recordOf inv with
  | .ok r => .ok (inv.body st, r)
  | .error msg => .error msg

/-- One call through the interceptor as the caller observes it: on success
the state advances and the record is appended to the recorder's log; on
failure nothing is emitted and the state is unchanged (the error propagates
synchronously). -/
def invoke1 {St : Type} (st : St) (recs : List WireRecord)
    (inv : Invocation St) : St × List WireRecord × Option String :=
  match intercept st inv with
  | .ok (st', r) => (st', recs ++ [r], none)
  | .error msg => (st, recs, some msg)

/-- Modelled from the spec (§4.4, §4.6): a recorder attached to the tree
while a list of top-level invocations runs: each successful invocation
appends exactly its record to `recorder.actions`; a failing invocation
throws, ending the run with the state unchanged by that call. -/
def runRecorded {St : Type} : St → List (Invocation St) → St × List WireRecord
  | st, [] => (st, [])
  | st, inv :: rest =>
      match intercept st inv with
      | .ok (st', r) =>
          let out := runRecorded st' rest
          (out.1, r :: out.2)
      | .error _ => (st, [])

/-- When every invocation's record serializes, the recorder log is exactly
the record list, one per invocation, and the final state is the fold of the
bodies. -/
theorem runRecorded_spec {St : Type} :
    ∀ (invs : List (Invocation St)) (recs : List WireRecord) (st : St),
      List.Forall₂ (fun inv r => recordOf inv = .ok r) invs recs →
      (runRecorded st invs).2 = recs ∧
      (runRecorded st invs).1 = invs.foldl (fun s inv => inv.body s) st := by
  intro invs
  induction invs with
  | nil =>
      intro recs st h
      cases h
      simp [runRecorded]
  | cons inv rest ih =>
      intro recs st h
      cases h with
      | cons hr hrest =>
          rename_i r rs
          have hint : intercept st inv = .ok (inv.body st, r) := by
            simp [intercept, hr]
          have hout := ih rs (inv.body st) hrest
          simp [runRecorded, hint, hout.1, hout.2]

/-! ## The Task model (test/action.ts) -/

/-- The `Task` model: `{ done: false }` with the action
`toggle() { this.done = !this.done; return this.done }`. -/
structure TaskS where
  done : Bool
  deriving Repr, DecidableEq

/-- `Task.create()` with the default snapshot. -/
def TaskS.create : TaskS := ⟨false⟩

/-- The `toggle` action body: flips `done` and returns the new value. -/
def toggle (t : TaskS) : TaskS × Bool :=
  (⟨!t.done⟩, !t.done)

/-- A top-level `toggle()` call on the root task (no arguments). -/
def toggleInvocation : Invocation TaskS :=
  .action "toggle" 0 [] [] [] (fun t => (toggle t).1)

/-- Apply one JSON patch op `{op: "replace", path: "done", value: b}` to a
task (the only patch shape the Task model admits). -/
def taskApplyPatchOp (_ : TaskS) : SArg → Option TaskS
  | .obj [("op", .str "replace"), ("path", .str "done"), ("value", .boolean b)] =>
      some ⟨b⟩
  | _ => none

/-- Apply a patch list in order. -/
def taskApplyPatches : TaskS → List SArg → Option TaskS
  | t, [] => some t
  | t, op :: ops =>
      match taskApplyPatchOp t op with
      | some t' => taskApplyPatches t' ops
      | none => none

/-- Modelled from the spec (§4.6): replay one record against a target task:
resolve the record's path against the target (only the root `""` exists),
dispatch the reserved `@APPLY_*` names, otherwise invoke the named action;
`toggle` ignores any extra deserialized arguments, as the source action
does. -/
def replayTaskRecord (t : TaskS) (r : WireRecord) : Option TaskS :=
  if r.path = "" then
    if r.name = "@APPLY_PATCHES" then
      match r.args with
      | [.arr ops] => taskApplyPatches t ops
      | _ => none
    else if r.name = "@APPLY_SNAPSHOT" then
      match r.args with
      | [.obj [("done", .boolean b)]] => some ⟨b⟩
      | _ => none
    else if r.name = "toggle" then some (toggle t).1
    else none
  else none

/-- Replay a full log in order against a target task (spec §4.6: a replay
failure aborts the remaining log). -/
def replayTask : TaskS → List WireRecord → Option TaskS
  | t, [] => some t
  | t, r :: rest =>
      match replayTaskRecord t r with
      | some t' => replayTask t' rest
      | none => none

/-! ## Claim C1: one record per invocation; toggle three times and replay -/

/-- C1: with a recorder attached, every sequence of top-level synchronous
invocations (user actions and `@APPLY_*` pseudo-actions alike) yields exactly
one record per invocation — the invoked name, acting node's root-relative
path, serialized args — and concretely three `toggle()` calls on a root Task
record three copies of `{name: "toggle", path: "", args: []}` whose replay
onto a second `Task.create()` sets `done = true`. -/
theorem recorder_one_record_per_invocation {St : Type} (st : St)
    (invs : List (Invocation St)) (recs : List WireRecord)
    (hok : List.Forall₂ (fun inv r => recordOf inv = .ok r) invs recs) :
    ((runRecorded st invs).2 = recs ∧
     (runRecorded st invs).2.length = invs.length ∧
     (runRecorded st invs).1 = invs.foldl (fun s inv => inv.body s) st) ∧
    runRecorded TaskS.create [toggleInvocation, toggleInvocation,
      toggleInvocation] =
      (⟨true⟩, [⟨"toggle", "", []⟩, ⟨"toggle", "", []⟩, ⟨"toggle", "", []⟩]) ∧
    replayTask TaskS.create
      [⟨"toggle", "", []⟩, ⟨"toggle", "", []⟩, ⟨"toggle", "", []⟩] =
      some ⟨true⟩ := by
  have h := runRecorded_spec invs recs st hok
  refine ⟨⟨h.1, ?_, h.2⟩, by rfl, by rfl⟩
  rw [h.1]
  exact (List.Forall₂.length_eq hok).symm

/-- Witness for C1 at the three-toggle sequence (and an `@APPLY_PATCHES`
pseudo-action). -/
theorem recorder_one_record_per_invocation_witness :
    (runRecorded TaskS.create
      [toggleInvocation, toggleInvocation, toggleInvocation]).2 =
      [⟨"toggle", "", []⟩, ⟨"toggle", "", []⟩, ⟨"toggle", "", []⟩] ∧
    (runRecorded TaskS.create
      [toggleInvocation, toggleInvocation, toggleInvocation]).2.length = 3 ∧
    replayTask TaskS.create
      [⟨"toggle", "", []⟩, ⟨"toggle", "", []⟩, ⟨"toggle", "", []⟩] =
      some ⟨true⟩ :=
  have hf : List.Forall₂ (fun inv r => recordOf inv = .ok r)
      [toggleInvocation, toggleInvocation, toggleInvocation]
      [⟨"toggle", "", []⟩, ⟨"toggle", "", []⟩, ⟨"toggle", "", []⟩] :=
    .cons rfl (.cons rfl (.cons rfl .nil))
  have h := recorder_one_record_per_invocation TaskS.create
    [toggleInvocation, toggleInvocation, toggleInvocation]
    [⟨"toggle", "", []⟩, ⟨"toggle", "", []⟩, ⟨"toggle", "", []⟩] hf
  ⟨h.1.1, h.1.2.1, h.2.2⟩

/-! ## Claim C9: snapshot during an action -/

/-- The model of the snapshot test: `{ x: types.number }` with the action
`inc`. -/
structure ModelX where
  x : Int
  deriving Repr, DecidableEq

/-- Modelled from the spec (§4.3, §6): `getSnapshot(node)` is the plain
projection of the node's *current* state — mutations already applied within
the running action are visible, never a stale cache. -/
def getSnapshotX (m : ModelX) : ModelX := m

/-- The `inc` action body:
`this.x += 1; const res = getSnapshot(this).x; this.x += 1; return res`. -/
def inc (m : ModelX) : ModelX × Int :=
  let m1 : ModelX := ⟨m.x + 1⟩
  let res := (getSnapshotX m1).x
  let m2 : ModelX := ⟨m1.x + 1⟩
  (m2, res)

/-- C9: a snapshot read during an action body reflects every mutation already
applied in the same call (the read after any prefix of the body's mutations
equals the accumulated state), and concretely from `{x: 2}` the `inc` action
returns 3 (the snapshot read between the two increments) and ends with
`x = 4`, `getSnapshot` agreeing. -/
theorem snapshot_updated_during_action :
    (∀ (muts : List (ModelX → ModelX)) (m : ModelX),
      getSnapshotX (muts.foldl (fun s f => f s) m) =
        muts.foldl (fun s f => f s) m) ∧
    (inc ⟨2⟩).2 = 3 ∧ (inc ⟨2⟩).1.x = 4 ∧ getSnapshotX (inc ⟨2⟩).1 = ⟨4⟩ :=
  ⟨fun _ _ => rfl, rfl, rfl, rfl⟩

/-! ## Claim C10: actions are bound to their node -/

/-- A heap of task nodes addressed by id (node identity for the binding
model). -/
def TaskHeap := Nat → TaskS

/-- Invoke `toggle` on node `id` of the heap. -/
def toggleAt (id : Nat) (h : TaskHeap) : TaskHeap × Bool :=
  let out := toggle (h id)
  (fun j => if j = id then out.1 else h j, out.2)

/-- Calling the raw unbound method: the receiver (`this`) comes from the call
site; with no receiver the call fails. -/
def rawToggleCall (thisArg : Option Nat) (h : TaskHeap) :
    Option (TaskHeap × Bool) :=
  thisArg.map (fun id => toggleAt id h)

/-- Modelled from the spec (§4.3 and the "wrap-before-dispatch" design
note): each declared action is wrapped at model-definition time into an
invoker carrying its node, so an extracted method is a closure over the node
and ignores the call-site receiver. -/
def boundToggleCall (node : Nat) (_thisArg : Option Nat) (h : TaskHeap) :
    Option (TaskHeap × Bool) :=
  some (toggleAt node h)

/-- C10: extracting an action into a standalone variable and calling it
without a receiver still executes against the original node, with the same
result as a direct method call; concretely `const f = task.toggle; f()`
returns `true` and toggles the task's `done`. -/
theorem action_bound_to_node :
    (∀ (node : Nat) (h : TaskHeap) (thisArg : Option Nat),
      boundToggleCall node thisArg h = rawToggleCall (some node) h) ∧
    (boundToggleCall 0 none (fun _ => TaskS.create)).map
      (fun out => out.2) = some true ∧
    (boundToggleCall 0 none (fun _ => TaskS.create)).map
      (fun out => (out.1 0).done) = some true :=
  ⟨fun _ _ _ => rfl, rfl, rfl⟩

/-! ## Claim C2: reference arguments round-trip -/

/-- The `Customer` model: an identifier and a name. -/
structure CustomerS where
  id : Int
  name : String
  deriving Repr, DecidableEq

/-- The `Order` model's snapshot: `customer` is a `maybe` reference, stored
in the snapshot as the referenced customer's identifier. -/
structure OrderS where
  customer : Option Int
  deriving Repr, DecidableEq

/-- The `OrderStore` snapshot. -/
structure OrderStoreS where
  customers : List CustomerS
  orders : List OrderS
  deriving Repr, DecidableEq

/-- The snapshot `createTestStore()` starts from. -/
def createTestStore : OrderStoreS :=
  ⟨[⟨1, "Mattia"⟩], [⟨none⟩]⟩

/-- Decimal value of a digit character, `none` otherwise. -/
def digitVal (c : Char) : Option Nat :=
  if c = '0' then some 0 else if c = '1' then some 1
  else if c = '2' then some 2 else if c = '3' then some 3
  else if c = '4' then some 4 else if c = '5' then some 5
  else if c = '6' then some 6 else if c = '7' then some 7
  else if c = '8' then some 8 else if c = '9' then some 9 else none

/-- Accumulate a decimal number over a non-empty digit list. -/
def digitsToNat : Nat → List Char → Option Nat
  | acc, [] => some acc
  | acc, c :: cs =>
      match digitVal c with
      | some d => digitsToNat (acc * 10 + d) cs
      | none => none

/-- Parse a path segment as an array index. -/
def segToNat (s : String) : Option Nat :=
  match s.toList with
  | [] => none
  | cs => digitsToNat 0 cs

/-- Look up the customer node at a root-relative path of the store. -/
def customerAt (s : OrderStoreS) : TreePath → Option CustomerS
  | ["customers", i] => (segToNat i).bind (fun n => s.customers.get? n)
  | _ => none

/-- The `setCustomer` action body on the order at `orderIdx`: assign the
customer node given by its path; the reference lands in the snapshot as the
customer's identifier. -/
def setCustomer (s : OrderStoreS) (orderIdx : Nat) (custPath : TreePath) :
    Option OrderStoreS :=
  (customerAt s custPath).map
    (fun c => ⟨s.customers, s.orders.set orderIdx ⟨some c.id⟩⟩)

/-- Modelled from the spec (§4.2): deserialize a reference argument against
the replay context node: resolve the relative path from the context; a
broken path is a hard error, never a silent null. -/
def deserializeRef (ctxPath : TreePath) (s : SArg) : Except String TreePath :=
  match s with
  | .ref rp =>
      match resolveRelative ctxPath (parseRelative rp) with
      | some p => .ok p
      | none => .error ("Failed to resolve path " ++ rp)
  | _ => .error "expected a reference"

/-- Modelled from the spec (§4.6): replay one `setCustomer` record against a
target store: resolve the record's path to the acting order node, deserialize
the reference argument against that node, invoke the action on it. -/
def replaySetCustomer (r : WireRecord) (s : OrderStoreS) :
    Except String OrderStoreS :=
  match parsePath r.path with
  | ["orders", i] =>
      match segToNat i with
      | some idx =>
          if r.name = "setCustomer" then
            match r.args with
            | [a] =>
                match deserializeRef ["orders", i] a with
                | .ok p =>
                    match setCustomer s idx p with
                    | some s' => .ok s'
                    | none => .error "failed to resolve reference target"
                | .error e => .error e
            | _ => .error "wrong arity"
          else .error "unknown action"
      | none => .error "bad path"
  | _ => .error "bad path"

/-- The recorded invocation of `store.orders[0].setCustomer(store.customers[0])`:
acting node `/orders/0` of tree 1, argument the node `/customers/0` of the
same tree. -/
def setCustomerInvocation : Invocation OrderStoreS :=
  .action "setCustomer" 1 ["orders", "0"] [.node 1 ["customers", "0"]] []
    (fun s => (setCustomer s 0 ["customers", "0"]).getD s)

/-- C2: a tree-node argument is serialized as `{$ref: <path relative to the
argument position's target node>}` and deserialization against the replay
context resolves it back (exact round-trip, for any two nodes of one tree);
concretely the customer at `/customers/0` passed into the order at
`/orders/0` records `args = [{$ref: "../../customers/0"}]`, and replaying
onto an equivalent store sets the target order's customer to the target's
own `/customers/0`, with equal final snapshots. -/
theorem reference_arg_round_trip :
    (∀ ctx target : TreePath, ".." ∉ target →
      resolveRelative ctx (relativePathSegs ctx target) = some target) ∧
    recordOf setCustomerInvocation =
      .ok ⟨"setCustomer", "/orders/0", [.ref "../../customers/0"]⟩ ∧
    setCustomer createTestStore 0 ["customers", "0"] =
      some ⟨[⟨1, "Mattia"⟩], [⟨some 1⟩]⟩ ∧
    deserializeRef ["orders", "0"] (.ref "../../customers/0") =
      .ok ["customers", "0"] ∧
    replaySetCustomer ⟨"setCustomer", "/orders/0", [.ref "../../customers/0"]⟩
      createTestStore = .ok ⟨[⟨1, "Mattia"⟩], [⟨some 1⟩]⟩ ∧
    customerAt createTestStore ["customers", "0"] = some ⟨1, "Mattia"⟩ :=
  ⟨resolveRelative_relativePathSegs, rfl, rfl, rfl, rfl, rfl⟩

/-- Witness for C2's round-trip hypothesis at the concrete order/customer
paths. -/
theorem reference_arg_round_trip_witness :
    resolveRelative ["orders", "0"]
      (relativePathSegs ["orders", "0"] ["customers", "0"]) =
      some ["customers", "0"] :=
  reference_arg_round_trip.1 ["orders", "0"] ["customers", "0"] (by decide)

/-! ## Claim C8: fail-fast on unserializable arguments -/

/-- C8: when any argument fails to serialize, the call fails synchronously
with that error before the body ever runs — the outcome does not mention the
body and the state (hence its snapshot) is unchanged — and the three failure
kinds produce the messages of the tests: a cross-tree node names the action
and argument index, a cyclic structure is "not serializable", an opaque host
object names the received kind. -/
theorem fail_fast_on_bad_argument {St : Type} (st : St)
    (recs : List WireRecord) (name : String) (tree : Nat) (path : TreePath)
    (rawArgs : List RawVal) (heap : ObjHeap) (msg : String) (body : St → St)
    (hfail : serializeArgs name tree path heap 0 rawArgs = .error msg) :
    invoke1 st recs (.action name tree path rawArgs heap body) =
      (st, recs, some msg) ∧
    serializeVal "setCustomer" 0 1 ["orders", "0"] [] 1 []
      (.node 2 ["customers", "0"]) = .error (crossTreeMsg 0 "setCustomer") ∧
    serializeVal "setCustomer" 0 1 ["orders", "0"]
      [(0, .objO [("a", .obj 0)])] 2 [] (.obj 0) =
      .error (notSerializableMsg 0 "setCustomer") ∧
    serializeVal "setCustomer" 0 1 ["orders", "0"] [] 1 []
      (.hostObj "Buffer") = .error (hostObjMsg 0 "setCustomer" "Buffer") := by
  refine ⟨?_, by rfl, by rfl, by rfl⟩
  simp [invoke1, intercept, recordOf, hfail, Except.map]

/-- Witness for C8: passing `store2.customers[0]` (tree 2) into
`setCustomer` of an order of tree 1 fails with the cross-tree message and
leaves the store unchanged. -/
theorem fail_fast_on_bad_argument_witness :
    invoke1 createTestStore []
      (.action "setCustomer" 1 ["orders", "0"] [.node 2 ["customers", "0"]]
        [] (fun s => (setCustomer s 0 ["customers", "0"]).getD s)) =
      (createTestStore, [], some (crossTreeMsg 0 "setCustomer")) :=
  (fail_fast_on_bad_argument createTestStore [] "setCustomer" 1
    ["orders", "0"] [.node 2 ["customers", "0"]] []
    (crossTreeMsg 0 "setCustomer")
    (fun s => (setCustomer s 0 ["customers", "0"]).getD s) (by rfl)).1

/-- Witness for C4's amended theorem at two successive invoker creations and
one complete run of the first invoker. -/
theorem async_runId_fresh_per_invoker_witness :
    (createAsyncActionInvoker "a" genTrivial 0).1.runId ≠
      (createAsyncActionInvoker "b" genTrivial
        (createAsyncActionInvoker "a" genTrivial 0).2).1.runId ∧
    (invokeAsync (createAsyncActionInvoker "a" genTrivial 0).1
      0 .undef 1).records =
      [⟨"a", "invoke", 1, .undef⟩, ⟨"a", "return", 1, .undef⟩] ∧
    (⟨"a", "return", 1, .undef⟩ : AsyncRecord).runId = 1 ∧
    (⟨"a", "return", 1, .undef⟩ : AsyncRecord).mode ≠ "invoke" := by
  have h := async_runId_fresh_per_invoker "a" "b" genTrivial genTrivial
    0 0 .undef 1
  obtain ⟨rest, hrecs, hrest⟩ := h.2
  have hconc : (invokeAsync (createAsyncActionInvoker "a" genTrivial 0).1
      0 .undef 1).records =
      [⟨"a", "invoke", 1, .undef⟩, ⟨"a", "return", 1, .undef⟩] := by rfl
  have hrest2 : rest = [⟨"a", "return", 1, .undef⟩] :=
    (List.cons_eq_cons.mp (hrecs.symm.trans hconc)).2
  have hmem : (⟨"a", "return", 1, .undef⟩ : AsyncRecord) ∈ rest := by
    rw [hrest2]; exact List.mem_singleton_self _
  exact ⟨h.1, hconc, (hrest _ hmem).1, (hrest _ hmem).2⟩
